import Mathlib

/-!
Shallow embedding of the core data-reshaping routines of the idashboard
repository (src/ihelpers.py), together with proofs of the frozen claims.

Modelling conventions:
* A pandas DataFrame of incidents is a `List Incident`; the loader output
  columns that the aggregation code touches are fields of `Incident`.
* `groupby(cols)` is modelled as the list of observed value combinations of
  `cols`, deduplicated and sorted by the per-column order (categorical rank
  for the `day_name` and `month` columns, numeric or lexicographic value
  order otherwise).  Only the terminal `order_categoricals` sort and the
  terminal `groupby` determine output order, and at those points the
  relevant columns carry exactly this order in the source, so intermediate
  key order is immaterial (all grouped keys are distinct).
* Counts are `Nat`; means are `ℚ`.  The source computes float means; every
  claim proved here only distinguishes exact values (in particular zero),
  on which rational and float arithmetic agree.
* A raised Python exception (KeyError on the mapping tables at lines
  207-224, TypeError from `pd.MultiIndex.from_tuples([])` reached through
  `create_complete_index` when the factor or key list is empty) is
  modelled as `Option.none`.
-/

/-- A cell value of the incident table: the columns used by the code hold
either strings or integers. -/
inductive Val where
  | str (s : String)
  | nat (n : Nat)
deriving DecidableEq, Repr

/-- The columns of the loaded incident table that
`aggregate_data_for_time_series` and `filter_on_slider_value` touch. -/
inductive Col where
  | dim_incident_id
  | dim_incident_incident_type
  | dim_datum_datum
  | dim_datum_jaar
  | hour
  | day_nr
  | week_nr
  | day_name
  | month
  | hub_vak_bk
deriving DecidableEq, Repr

/-- One row of the table produced by `load_and_preprocess_incidents`:
the raw columns kept by the loader plus the derived zero-padded string
columns `hour`, `day_nr`, `week_nr` and the name columns `day_name`,
`month` (ihelpers.py lines 89-117). -/
structure Incident where
  dim_incident_id : Nat
  dim_incident_incident_type : String
  dim_datum_datum : String
  dim_datum_jaar : Nat
  hour : String
  day_nr : String
  week_nr : String
  day_name : String
  month : String
  hub_vak_bk : Nat
deriving DecidableEq, Repr

/-- Reading one cell of a row. -/
def colVal (r : Incident) : Col → Val
  | .dim_incident_id => .nat r.dim_incident_id
  | .dim_incident_incident_type => .str r.dim_incident_incident_type
  | .dim_datum_datum => .str r.dim_datum_datum
  | .dim_datum_jaar => .nat r.dim_datum_jaar
  | .hour => .str r.hour
  | .day_nr => .str r.day_nr
  | .week_nr => .str r.week_nr
  | .day_name => .str r.day_name
  | .month => .str r.month
  | .hub_vak_bk => .nat r.hub_vak_bk

/-- Ordered categories of the `day_name` column (ihelpers.py lines 109-110
and 371-373). -/
def day_categories : List String := ["Mon", "Tue", "Wed", "Thu", "Fri", "Sat", "Sun"]

/-- Ordered categories of the `month` column (ihelpers.py lines 115-117 and
374-377). -/
def month_categories : List String :=
  ["Jan", "Feb", "Mar", "Apr", "May", "Jun", "Jul", "Aug", "Sep", "Oct", "Nov", "Dec"]

/-- Position of a value in an ordered categorical; values outside the
categories (pandas NaN) sort last. -/
def catRank (cats : List String) : Val → Nat
  | .str s => cats.indexOf s
  | .nat _ => cats.length

/-- Sort rank of a cell, per column, as a (numeric, string) pair ordered
lexicographically: categorical position for `day_name` and `month`,
numeric order for integer columns, lexicographic order for string
columns. -/
def valRank (c : Col) (v : Val) : Nat × String :=
  match c with
  | .day_name => (catRank day_categories v, "")
  | .month => (catRank month_categories v, "")
  | _ =>
      match v with
      | .nat n => (n, "")
      | .str s => (0, s)

/-- Componentwise sort rank of a composite groupby key. -/
def keyRank (cols : List Col) (k : List Val) : List (Nat × String) :=
  (List.zip cols k).map (fun p => valRank p.1 p.2)

/-- Strict lexicographic order on cell ranks. -/
def pairLt (x y : Nat × String) : Bool :=
  x.1 < y.1 || (x.1 = y.1 && x.2 < y.2)

/-- Strict lexicographic order on composite-key ranks. -/
def ranksLt : List (Nat × String) → List (Nat × String) → Bool
  | [], [] => false
  | _ :: _, [] => false
  | [], _ :: _ => true
  | x :: xs, y :: ys => if x = y then ranksLt xs ys else pairLt x y

/-- Strict order on full sort keys: composite-key ranks first, then the
numeric (mean) column, matching `sort_values(by=list(df.columns))` on a
frame whose last column is the value column. -/
def skLt (x y : List (Nat × String) × ℚ) : Bool :=
  ranksLt x.1 y.1 || (decide (x.1 = y.1) && decide (x.2 < y.2))

/-- Non-strict comparator used for sorting: `a` may precede `b` if `b` is
not strictly below `a`. -/
def skLe {α : Type} (f : α → List (Nat × String) × ℚ) (a b : α) : Bool :=
  !(skLt (f b) (f a))

/-- Insert into a sorted list (models the effect of a sorting pandas
operation; all sort keys in actual use are distinct, so the choice of
algorithm and tie placement is immaterial). -/
def ordIns {α : Type} (le : α → α → Bool) (a : α) : List α → List α
  | [] => [a]
  | b :: l => if le a b then a :: b :: l else b :: ordIns le a l

/-- Insertion sort by a Bool comparator. -/
def inSort {α : Type} (le : α → α → Bool) : List α → List α
  | [] => []
  | a :: l => ordIns le a (inSort le l)

/-- Sorting a list by a rank function. -/
def sortByRank {α : Type} (f : α → List (Nat × String) × ℚ) (l : List α) : List α :=
  inSort (skLe f) l

/-- The composite key of a row for a list of groupby columns. -/
def keyOf (cols : List Col) (r : Incident) : List Val := cols.map (colVal r)

/-- Number of rows of `df` with composite key `k`: the value of
`df.groupby(cols)["dim_incident_id"].count()` at key `k` (and the fill
value 0 where no row matches, as produced by `reindex(_, fill_value=0)`). -/
def countAt (cols : List Col) (df : List Incident) (k : List Val) : Nat :=
  (df.filter (fun r => keyOf cols r == k)).length

/-- Sort key of a groupby key (no value column). -/
def keySortKey (cols : List Col) (k : List Val) : List (Nat × String) × ℚ :=
  (keyRank cols k, 0)

/-- The index of `df.groupby(cols)["dim_incident_id"].count()`: the observed
key combinations, deduplicated and sorted. -/
def groupKeys (cols : List Col) (df : List Incident) : List (List Val) :=
  sortByRank (keySortKey cols) ((df.map (keyOf cols)).dedup)

/-- Value of column `c` inside a composite key laid out along `cols`. -/
def rowVal (cols : List Col) (k : List Val) (c : Col) : Val :=
  k.getD (cols.indexOf c) (.str "")

/-- Projection of a key laid out along `cols1` onto the columns `cols2`. -/
def subKey (cols1 cols2 : List Col) (k : List Val) : List Val :=
  cols2.map (rowVal cols1 k)

/-- A row of the frame that results from the second (mean) grouping: the
key values of the second groupby columns and the mean count. -/
structure MRow where
  key : List Val
  mean : ℚ
deriving DecidableEq, Repr

/-- Per-row sort key used by `order_categoricals`: all frame columns, key
columns first, then the value column, as `sort_values(by=list(df.columns))`. -/
def rowSortKey (cols : List Col) (r : MRow) : List (Nat × String) × ℚ :=
  (keyRank cols r.key, r.mean)

/-- The second grouping with mean
(`grouped.groupby(cols2)["dim_incident_id"].mean().reset_index()`), taking
the first-grouping frame as a list of (key along `cols1`, count) pairs. -/
def meanRows (cols1 cols2 : List Col) (frame : List (List Val × Nat)) : List MRow :=
  (sortByRank (keySortKey cols2) ((frame.map (fun e => subKey cols1 cols2 e.1)).dedup)).map
    (fun k =>
      let es := frame.filter (fun e => subKey cols1 cols2 e.1 == k)
      ⟨k, ((es.map (fun e => (e.2 : ℚ))).sum) / (es.length : ℚ)⟩)

/-- Embedding of ihelpers.order_categoricals (lines 357-380): recast
`day_name` and `month` to ordered categoricals and sort the frame by all
of its columns.  The recast is captured by `rowSortKey` ranking those
columns categorically. -/
def order_categoricals (cols : List Col) (rows : List MRow) : List MRow :=
  sortByRank (rowSortKey cols) rows

/-- An entry of the output x sequence: a scalar column value, or a tuple
when more than one column makes up the aggregation key. -/
inductive XKey where
  | scalar (v : Val)
  | tup (vs : List Val)
deriving DecidableEq, Repr

/-- Embedding of the inner add_x_column (ihelpers.py lines 179-205) applied
to one row: row-wise tuple of the `xcols` values if there is more than one,
otherwise the single column value. -/
def add_x_column (xcols : List Col) (k : List Val) : XKey :=
  if 1 < xcols.length then .tup k else .scalar (k.headD (.str ""))

/-- The (x, y, labels) result of the aggregator.  In the source, `x` and
`y` hold scalars without grouping and per-group lists with grouping, and
`labels` is the list of group names (empty without grouping). -/
inductive TSOut where
  | flat (x : List XKey) (y : List ℚ)
  | grouped (x : List (List XKey)) (y : List (List ℚ)) (labels : List Val)
deriving DecidableEq, Repr

/-- Length of the returned x list. -/
def TSOut.xLen : TSOut → Nat
  | .flat x _ => x.length
  | .grouped x _ _ => x.length

/-- Length of the returned y list. -/
def TSOut.yLen : TSOut → Nat
  | .flat _ y => y.length
  | .grouped _ y _ => y.length

/-- The returned labels list (`[]` in the ungrouped branch, line 308). -/
def TSOut.labelList : TSOut → List Val
  | .flat _ _ => []
  | .grouped _ _ ls => ls

/-- Embedding of ihelpers.py lines 208-210. -/
def pattern_mapping : String → Option (List Col)
  | "Daily" => some [.dim_datum_datum]
  | "Weekly" => some [.dim_datum_jaar, .week_nr]
  | "Yearly" => some [.dim_datum_jaar]
  | _ => none

/-- Embedding of ihelpers.py lines 212-215. -/
def agg_mapping : String → Option (List Col)
  | "Hour" => some [.hour]
  | "Day" => some [.day_name]
  | "Week" => some [.week_nr]
  | "Month" => some [.month]
  | _ => none

/-- Embedding of ihelpers.py lines 217-220; `some none` is the supported
"None" (no grouping) entry, `none` a KeyError. -/
def group_mapping : String → Option (Option (List Col))
  | "None" => some none
  | "Type" => some (some [.dim_incident_incident_type])
  | "Day of Week" => some (some [.day_name])
  | "Year" => some (some [.dim_datum_jaar])
  | _ => none

/-- Embedding of the column-set adjustment for unit/pattern combinations
spanning more than one natural unit (ihelpers.py lines 231-241); returns
(agg_cols, pattern_cols). -/
def adjust_cols (agg pattern : String) (aggCols patternCols : List Col) :
    List Col × List Col :=
  if agg = "Hour" ∧ pattern = "Weekly" then ([.day_name, .hour], patternCols)
  else if agg = "Hour" ∧ pattern = "Yearly" then ([.month, .day_nr, .hour], patternCols)
  else if agg = "Day" ∧ pattern = "Weekly" then (aggCols, [.dim_datum_jaar, .week_nr])
  else if agg = "Day" ∧ pattern = "Yearly" then ([.month, .day_nr], patternCols)
  else (aggCols, patternCols)

/-- Type filter (line 227): `dfi[np.isin(dfi["dim_incident_incident_type"], types)]`. -/
def type_filter (dfi : List Incident) (types : List String) : List Incident :=
  dfi.filter (fun r => types.contains r.dim_incident_incident_type)

/-- Location filter (lines 228-229), applied only when a zone subset is given. -/
def location_filter (df : List Incident) (locations : Option (List Nat)) :
    List Incident :=
  match locations with
  | none => df
  | some locs => df.filter (fun r => locs.contains r.hub_vak_bk)

/-- The `factors` argument of create_complete_index:
`list(np.unique(dfi_filtered[groupby_col]))` (line 252), the distinct
observed values of the single grouping column.  np.unique sorts by raw
value; the order is immaterial downstream (the index is consumed as a
set), so the per-column rank order is used here. -/
def factorsOf (df : List Incident) (gcols : List Col) : List Val :=
  match gcols with
  | [g] => sortByRank (fun v => ([valRank g v], 0)) ((df.map (fun r => colVal r g)).dedup)
  | _ => (df.flatMap (fun r => keyOf gcols r)).dedup

/-- Embedding of ihelpers.create_complete_index (lines 335-355): the
product of every observed key combination of `cols` in `data` with every
factor.  `pd.MultiIndex.from_tuples` raises TypeError on an empty tuple
list, which is modelled as `none`. -/
def create_complete_index (data : List Incident) (cols : List Col)
    (factors : List Val) : Option (List (List Val)) :=
  let tuples := (groupKeys cols data).flatMap (fun k => factors.map (fun f => k ++ [f]))
  if tuples.isEmpty then none else some tuples

/-- The first-grouping frame after `reindex(idx, fill_value=0)` and
`reset_index()`: one (key, count-of-filtered-rows) entry per index key. -/
def reindexed_counts (idx : List (List Val)) (cols1 : List Col)
    (dfif : List Incident) : List (List Val × Nat) :=
  idx.map (fun k => (k, countAt cols1 dfif k))

/-- The frame rows of the ungrouped wrangling branch just before the x
column is added. -/
def flat_rows (dfi dfi_filtered : List Incident)
    (patternCols aggCols : List Col) : List MRow :=
  order_categoricals aggCols
    (meanRows (patternCols ++ aggCols) aggCols
      (reindexed_counts (groupKeys (patternCols ++ aggCols) dfi)
        (patternCols ++ aggCols) dfi_filtered))

/-- The ungrouped wrangling branch (ihelpers.py lines 283-308): count the
filtered rows per observed (pattern, agg) key of the unfiltered table,
zero-filling, average over the pattern columns, order categoricals, build
the x column. -/
def flat_result (dfi dfi_filtered : List Incident)
    (patternCols aggCols : List Col) : TSOut :=
  let rows := flat_rows dfi dfi_filtered patternCols aggCols
  .flat (rows.map (fun r => add_x_column aggCols r.key)) (rows.map (fun r => r.mean))

/-- The group keys of the final `groupby(groupby_col)`: the distinct
grouping-column values among the frame rows, sorted. -/
def group_labels (aggCols gcols : List Col) (rows : List MRow) : List (List Val) :=
  sortByRank (keySortKey gcols) ((rows.map (fun r => r.key.drop aggCols.length)).dedup)

/-- The final per-group split (ihelpers.py lines 272-281):
`grouped.groupby(groupby_col).apply(lambda x: (x["x"].tolist(), ...))`.
Group keys appear sorted; rows keep their frame order inside each group. -/
def group_result (aggCols gcols : List Col) (rows : List MRow) : TSOut :=
  .grouped
    ((group_labels aggCols gcols rows).map (fun g =>
      (rows.filter (fun r => r.key.drop aggCols.length == g)).map
        (fun r => add_x_column aggCols (r.key.take aggCols.length))))
    ((group_labels aggCols gcols rows).map (fun g =>
      (rows.filter (fun r => r.key.drop aggCols.length == g)).map (fun r => r.mean)))
    ((group_labels aggCols gcols rows).map (fun g => g.headD (.str "")))

/-- The frame rows of the grouped branch whose grouping column already
occurs among the aggregation or pattern columns. -/
def sub_rows (dfi dfif : List Incident)
    (patternCols aggCols gcols : List Col) : List MRow :=
  order_categoricals (aggCols ++ gcols)
    (meanRows (patternCols ++ aggCols) (aggCols ++ gcols)
      (reindexed_counts (groupKeys (patternCols ++ aggCols) dfi)
        (patternCols ++ aggCols) dfif))

/-- The grouped branch when the grouping column already occurs among the
aggregation or pattern columns (ihelpers.py lines 245-247 then 256-281):
the complete index is the unfiltered observed (pattern, agg) key set. -/
def group_result_sub (dfi dfif : List Incident)
    (patternCols aggCols gcols : List Col) : TSOut :=
  group_result aggCols gcols (sub_rows dfi dfif patternCols aggCols gcols)

/-- The frame rows of the grouped branch for a fresh grouping column. -/
def full_rows (dfif : List Incident)
    (patternCols aggCols gcols : List Col) (idx : List (List Val)) : List MRow :=
  order_categoricals (aggCols ++ gcols)
    (meanRows (patternCols ++ aggCols ++ gcols) (aggCols ++ gcols)
      (reindexed_counts idx (patternCols ++ aggCols ++ gcols) dfif))

/-- The grouped branch for a fresh grouping column (ihelpers.py lines
248-281): the complete index is the product of unfiltered observed time
keys with the observed filtered group values. -/
def group_result_full (dfif : List Incident)
    (patternCols aggCols gcols : List Col) (idx : List (List Val)) : TSOut :=
  group_result aggCols gcols (full_rows dfif patternCols aggCols gcols idx)

/-- Embedding of ihelpers.aggregate_data_for_time_series (lines 160-313).
Unsupported `agg`/`pattern`/`group` values (KeyError) and the TypeError
from an empty complete index are `none`. -/
def aggregate_data_for_time_series (dfi : List Incident) (agg pattern group : String)
    (types : List String) (locations : Option (List Nat)) : Option TSOut :=
  match pattern_mapping pattern, agg_mapping agg, group_mapping group with
  | some patternCols0, some aggCols0, some groupby_col =>
      let dfi_filtered := location_filter (type_filter dfi types) locations
      let ap := adjust_cols agg pattern aggCols0 patternCols0
      match groupby_col with
      | none => some (flat_result dfi dfi_filtered ap.2 ap.1)
      | some gcols =>
          if gcols.all (fun c => (ap.1 ++ ap.2).contains c) then
            some (group_result_sub dfi dfi_filtered ap.2 ap.1 gcols)
          else
            match create_complete_index dfi (ap.2 ++ ap.1) (factorsOf dfi_filtered gcols) with
            | none => none
            | some idx => some (group_result_full dfi_filtered ap.2 ap.1 gcols idx)
  | _, _, _ => none

/-! ### Order infrastructure for the sort model -/

theorem mem_ordIns {α : Type} (le : α → α → Bool) (a x : α) (l : List α) :
    x ∈ ordIns le a l ↔ x = a ∨ x ∈ l := by
  induction l with
  | nil => simp [ordIns]
  | cons b l ih =>
      by_cases h : le a b = true
      · simp [ordIns, h]
      · simp [ordIns, h, ih]
        tauto

theorem mem_inSort {α : Type} (le : α → α → Bool) (l : List α) (x : α) :
    x ∈ inSort le l ↔ x ∈ l := by
  induction l with
  | nil => simp [inSort]
  | cons a l ih => simp [inSort, mem_ordIns, ih]

theorem pairwise_ordIns {α : Type} (le : α → α → Bool)
    (htot : ∀ a b, le a b = true ∨ le b a = true)
    (htrans : ∀ a b c, le a b = true → le b c = true → le a c = true)
    (a : α) (l : List α) (hl : l.Pairwise (fun u v => le u v = true)) :
    (ordIns le a l).Pairwise (fun u v => le u v = true) := by
  induction l with
  | nil => simp [ordIns]
  | cons b l ih =>
      rcases List.pairwise_cons.1 hl with ⟨hb, hl'⟩
      by_cases h : le a b = true
      · simp only [ordIns, if_pos h]
        refine List.pairwise_cons.2 ⟨?_, hl⟩
        intro c hc
        rcases List.mem_cons.1 hc with rfl | hc2
        · exact h
        · exact htrans _ _ _ h (hb c hc2)
      · simp only [ordIns, if_neg h]
        refine List.pairwise_cons.2 ⟨?_, ih hl'⟩
        intro c hc
        rcases (mem_ordIns le a c l).1 hc with rfl | hc2
        · exact (htot _ b).resolve_left h
        · exact hb c hc2

theorem pairwise_inSort {α : Type} (le : α → α → Bool)
    (htot : ∀ a b, le a b = true ∨ le b a = true)
    (htrans : ∀ a b c, le a b = true → le b c = true → le a c = true)
    (l : List α) :
    (inSort le l).Pairwise (fun u v => le u v = true) := by
  induction l with
  | nil => simp [inSort]
  | cons a l ih => exact pairwise_ordIns le htot htrans a (inSort le l) ih

theorem pairLt_irrefl (x : Nat × String) : pairLt x x = false := by
  simp [pairLt]

theorem pairLt_asymm {x y : Nat × String} (h : pairLt x y = true) : pairLt y x = false := by
  simp only [pairLt, Bool.or_eq_true, Bool.and_eq_true, decide_eq_true_eq] at h
  simp only [pairLt, Bool.or_eq_false_iff, Bool.and_eq_false_iff, decide_eq_false_iff_not]
  rcases h with h | ⟨h1, h2⟩
  · exact ⟨not_lt.2 (le_of_lt h), Or.inl (ne_of_gt h)⟩
  · exact ⟨not_lt.2 (le_of_eq h1), Or.inr (not_lt.2 (le_of_lt h2))⟩

theorem pairLt_trans {x y z : Nat × String} (h1 : pairLt x y = true)
    (h2 : pairLt y z = true) : pairLt x z = true := by
  simp only [pairLt, Bool.or_eq_true, Bool.and_eq_true, decide_eq_true_eq] at h1 h2 ⊢
  rcases h1 with h1 | ⟨h1a, h1b⟩ <;> rcases h2 with h2 | ⟨h2a, h2b⟩
  · exact Or.inl (h1.trans h2)
  · exact Or.inl (h2a ▸ h1)
  · exact Or.inl (h1a ▸ h2)
  · exact Or.inr ⟨h1a.trans h2a, h1b.trans h2b⟩

theorem pairLt_eq_of_not {x y : Nat × String} (h1 : pairLt x y = false)
    (h2 : pairLt y x = false) : x = y := by
  simp only [pairLt, Bool.or_eq_false_iff, Bool.and_eq_false_iff,
    decide_eq_false_iff_not] at h1 h2
  obtain ⟨h1a, h1b⟩ := h1
  obtain ⟨h2a, h2b⟩ := h2
  have hn : x.1 = y.1 := le_antisymm (not_lt.1 h2a) (not_lt.1 h1a)
  rcases h1b with h | h
  · exact absurd hn h
  · rcases h2b with h' | h'
    · exact absurd hn.symm h'
    · exact Prod.ext hn (le_antisymm (not_lt.1 h') (not_lt.1 h))

theorem ranksLt_irrefl (x : List (Nat × String)) : ranksLt x x = false := by
  induction x with
  | nil => rfl
  | cons a l ih => simp [ranksLt, ih]

theorem ranksLt_asymm : ∀ {x y : List (Nat × String)},
    ranksLt x y = true → ranksLt y x = false
  | [], [], h => by simp [ranksLt] at h
  | _ :: _, [], h => by simp [ranksLt] at h
  | [], _ :: _, _ => by simp [ranksLt]
  | x :: xs, y :: ys, h => by
      by_cases hxy : x = y
      · subst hxy
        simp only [ranksLt, if_pos rfl] at h ⊢
        exact ranksLt_asymm h
      · simp only [ranksLt, if_neg hxy, if_neg (Ne.symm hxy)] at h ⊢
        exact pairLt_asymm h

theorem ranksLt_trans {x y z : List (Nat × String)} (h1 : ranksLt x y = true)
    (h2 : ranksLt y z = true) : ranksLt x z = true := by
  induction x generalizing y z with
  | nil =>
      cases z with
      | nil =>
          cases y with
          | nil => simp [ranksLt] at h1
          | cons b ys => simp [ranksLt] at h2
      | cons c zs => simp [ranksLt]
  | cons a xs ih =>
      cases y with
      | nil => simp [ranksLt] at h1
      | cons b ys =>
          cases z with
          | nil => simp [ranksLt] at h2
          | cons c zs =>
              by_cases hab : a = b
              · subst hab
                rw [ranksLt, if_pos rfl] at h1
                by_cases hac : a = c
                · subst hac
                  rw [ranksLt, if_pos rfl] at h2 ⊢
                  exact ih h1 h2
                · rw [ranksLt, if_neg hac] at h2 ⊢
                  exact h2
              · rw [ranksLt, if_neg hab] at h1
                by_cases hbc : b = c
                · subst hbc
                  rw [ranksLt, if_neg hab]
                  exact h1
                · rw [ranksLt, if_neg hbc] at h2
                  by_cases hac : a = c
                  · have h3 := pairLt_asymm h1
                    subst hac
                    rw [h2] at h3
                    exact absurd h3 (by simp)
                  · rw [ranksLt, if_neg hac]
                    exact pairLt_trans h1 h2

theorem ranksLt_eq_of_not {x y : List (Nat × String)} (h1 : ranksLt x y = false)
    (h2 : ranksLt y x = false) : x = y := by
  induction x generalizing y with
  | nil =>
      cases y with
      | nil => rfl
      | cons b ys => simp [ranksLt] at h1
  | cons a xs ih =>
      cases y with
      | nil => simp [ranksLt] at h2
      | cons b ys =>
          by_cases hab : a = b
          · subst hab
            rw [ranksLt, if_pos rfl] at h1 h2
            rw [ih h1 h2]
          · rw [ranksLt, if_neg hab] at h1
            rw [ranksLt, if_neg (Ne.symm hab)] at h2
            exact absurd (pairLt_eq_of_not h1 h2) hab

theorem skLt_asymm {x y : List (Nat × String) × ℚ} (h : skLt x y = true) :
    skLt y x = false := by
  simp only [skLt, Bool.or_eq_true, Bool.and_eq_true, decide_eq_true_eq] at h ⊢
  simp only [Bool.or_eq_false_iff, Bool.and_eq_false_iff, decide_eq_false_iff_not]
  rcases h with h | ⟨he, hm⟩
  · refine ⟨ranksLt_asymm h, Or.inl ?_⟩
    intro he2
    rw [he2] at h
    rw [ranksLt_irrefl] at h
    simp at h
  · constructor
    · rw [← he, ranksLt_irrefl]
    · exact Or.inr (not_lt.2 (le_of_lt hm))

theorem skLt_negtrans {x y z : List (Nat × String) × ℚ} (h1 : skLt x y = false)
    (h2 : skLt y z = false) : skLt x z = false := by
  simp only [skLt, Bool.or_eq_false_iff, Bool.and_eq_false_iff,
    decide_eq_false_iff_not] at h1 h2 ⊢
  obtain ⟨h1r, h1m⟩ := h1
  obtain ⟨h2r, h2m⟩ := h2
  by_cases hyx : ranksLt y.1 x.1 = true
  · by_cases hzy : ranksLt z.1 y.1 = true
    · have hzx := ranksLt_trans hzy hyx
      refine ⟨ranksLt_asymm hzx, Or.inl ?_⟩
      intro he
      rw [he] at hzx
      rw [ranksLt_irrefl] at hzx
      simp at hzx
    · have hyz := ranksLt_eq_of_not h2r (by simpa using hzy)
      rw [← hyz]
      refine ⟨ranksLt_asymm hyx, Or.inl ?_⟩
      intro he
      rw [he] at hyx
      rw [ranksLt_irrefl] at hyx
      simp at hyx
  · have hxy := ranksLt_eq_of_not h1r (by simpa using hyx)
    by_cases hzy : ranksLt z.1 y.1 = true
    · refine ⟨by rw [hxy]; exact h2r, Or.inl ?_⟩
      intro he
      rw [← he, hxy] at hzy
      rw [ranksLt_irrefl] at hzy
      simp at hzy
    · have hyz := ranksLt_eq_of_not h2r (by simpa using hzy)
      refine ⟨by rw [hxy, hyz, ranksLt_irrefl], Or.inr ?_⟩
      have hm1 : ¬ x.2 < y.2 := h1m.resolve_left (by simp [hxy])
      have hm2 : ¬ y.2 < z.2 := h2m.resolve_left (by simp [hyz])
      intro hlt
      exact hm1 (lt_of_lt_of_le hlt (le_of_not_lt hm2))

theorem skLe_total {α : Type} (f : α → List (Nat × String) × ℚ) (a b : α) :
    skLe f a b = true ∨ skLe f b a = true := by
  by_cases h : skLt (f b) (f a) = true
  · right
    simp [skLe, skLt_asymm h]
  · left
    rw [skLe, Bool.not_eq_true']
    simpa using h

theorem skLe_trans {α : Type} (f : α → List (Nat × String) × ℚ) (a b c : α)
    (h1 : skLe f a b = true) (h2 : skLe f b c = true) : skLe f a c = true := by
  simp only [skLe, Bool.not_eq_true'] at h1 h2 ⊢
  exact skLt_negtrans h2 h1

theorem mem_sortByRank {α : Type} (f : α → List (Nat × String) × ℚ) (l : List α)
    (x : α) : x ∈ sortByRank f l ↔ x ∈ l :=
  mem_inSort (skLe f) l x

theorem pairwise_sortByRank {α : Type} (f : α → List (Nat × String) × ℚ)
    (l : List α) : (sortByRank f l).Pairwise (fun u v => skLe f u v = true) :=
  pairwise_inSort (skLe f) (skLe_total f) (skLe_trans f) l

/-! ### Geo aggregation, slider filtering, loader invariants -/

/-- A row of the zone-geometry table produced by
`load_and_preprocess_geodata`: the integer zone code `vak` and the
reprojected polygon, kept opaque here.  Per the spec there is one geometry
per zone identifier. -/
structure Zone where
  vak : Nat
  geometry_lonlat : String
deriving DecidableEq, Repr

/-- A row of the output of prepare_data_for_geoplot. -/
structure GeoRow where
  location_id : Nat
  incident_rate : ℚ
  geometry : String
deriving DecidableEq, Repr

/-- Embedding of ihelpers.prepare_data_for_geoplot (lines 122-157):
count incidents per zone code, left-merge the zone table onto the grouped
counts (the grouped counts are the left side, so the output has one row
per zone code observed among the incidents; `find?` models the join for
the unique zone codes the spec guarantees), drop rows whose join found no
geometry, and keep (location_id, incident_rate, geometry).  The final
`fillna(0)` is a no-op in this pipeline because a groupby count is never
null. -/
def prepare_data_for_geoplot (incidents : List Incident) (vakken : List Zone) :
    List GeoRow :=
  let grouped :=
    (sortByRank (fun v => ([(v, "")], 0)) ((incidents.map (fun r => r.hub_vak_bk)).dedup)).map
      (fun v => (v, (incidents.filter (fun r => r.hub_vak_bk == v)).length))
  let merged := grouped.map (fun p => (p, vakken.find? (fun z => z.vak == p.1)))
  let kept := merged.filter (fun q => q.2.isSome)
  kept.map (fun q =>
    { location_id := q.1.1, incident_rate := (q.1.2 : ℚ),
      geometry := (q.2.map (fun z => z.geometry_lonlat)).getD "" })

/-- Python str.zfill for the non-negative values the sliders produce. -/
def zfill (width : Nat) (s : String) : String :=
  if s.length < width then
    String.mk (List.replicate (width - s.length) (Char.ofNat 48)) ++ s
  else s

/-- The day-number dictionary of filter_on_slider_value (line 400);
a missing key is a KeyError. -/
def day_number_mapping : Nat → Option String
  | 1 => some "Mon"
  | 2 => some "Tue"
  | 3 => some "Wed"
  | 4 => some "Thu"
  | 5 => some "Fri"
  | 6 => some "Sat"
  | 7 => some "Sun"
  | _ => none

/-- Embedding of ihelpers.filter_on_slider_value (lines 383-407).  The
final else branch of the source constructs a ValueError without raising it
and falls off the function, returning Python None; together with the
possible KeyError in the day branch this makes the result an Option. -/
def filter_on_slider_value (data : List Incident) (time_unit : String)
    (value : Nat) : Option (List Incident) :=
  if time_unit = "hour" then
    some (data.filter (fun r => r.hour == zfill 2 (toString value)))
  else if time_unit = "day" then
    (day_number_mapping value).map (fun d => data.filter (fun r => r.day_name == d))
  else if time_unit = "week" then
    some (data.filter (fun r => r.week_nr == zfill 2 (toString value)))
  else if time_unit = "month" then
    some (data.filter (fun r => r.month == zfill 2 (toString value)))
  else none

/-- Invariant established by load_and_preprocess_incidents lines 112-117:
the `month` column holds the mapped month names (rows whose month number
fell outside the dictionary would hold NaN; such rows match no equality
filter either, so the theorems stated under this invariant cover every
comparison the month filter can make succeed). -/
def loader_month_invariant (df : List Incident) : Prop :=
  ∀ r ∈ df, r.month ∈ month_categories

/-- Invariant established by load_and_preprocess_incidents lines 106-110:
the `day_name` column holds the seven mapped weekday names. -/
def loader_day_invariant (df : List Incident) : Prop :=
  ∀ r ∈ df, r.day_name ∈ day_categories

/-- The aggregator call together with the state of the caller's incident
table when the call returns.  In the source, the only operations applied
to the caller's frame `dfi` are boolean-mask selections (lines 227-229)
and groupby counts (lines 246, 249-252, 284-288), each of which builds a
new pandas object; every in-place write inside the call (the column
assignment of add_x_column at lines 201-203, the recast and sort of
order_categoricals at lines 370-380, the rename at line 306) targets a
frame freshly produced by reset_index or boolean selection.  The table
bound to `dfi` is therefore the unchanged input, which this wrapper
returns as the post-call state. -/
def aggregate_call_with_table (dfi : List Incident) (agg pattern group : String)
    (types : List String) (locations : Option (List Nat)) :
    Option TSOut × List Incident :=
  (aggregate_data_for_time_series dfi agg pattern group types locations, dfi)

/-! ### Supporting lemmas about the aggregation pipeline -/

theorem mem_groupKeys {cols : List Col} {df : List Incident} {k : List Val} :
    k ∈ groupKeys cols df ↔ ∃ r ∈ df, keyOf cols r = k := by
  unfold groupKeys
  rw [mem_sortByRank, List.mem_dedup, List.mem_map]

theorem mem_order_categoricals {cols : List Col} {rows : List MRow} {r : MRow} :
    r ∈ order_categoricals cols rows ↔ r ∈ rows :=
  mem_sortByRank _ _ _

theorem rowVal_keyOf {cols : List Col} {c : Col} (r : Incident) (hc : c ∈ cols) :
    rowVal cols (keyOf cols r) c = colVal r c := by
  have hlt : cols.indexOf c < cols.length := List.indexOf_lt_length.2 hc
  unfold rowVal keyOf
  rw [List.getD_eq_getElem _ _ (by simpa using hlt)]
  simp [List.getElem_indexOf hlt]

theorem subKey_keyOf {cols1 cols2 : List Col} (r : Incident)
    (h : ∀ c ∈ cols2, c ∈ cols1) :
    subKey cols1 cols2 (keyOf cols1 r) = keyOf cols2 r :=
  List.map_congr_left (fun c hc => rowVal_keyOf r (h c hc))

theorem countAt_eq_zero {cols : List Col} {df : List Incident} {k : List Val} :
    countAt cols df k = 0 ↔ ∀ r ∈ df, keyOf cols r ≠ k := by
  unfold countAt
  rw [List.length_eq_zero, List.filter_eq_nil_iff]
  simp

theorem meanRows_key_mem {cols1 cols2 : List Col} {frame : List (List Val × Nat)}
    {r : MRow} (hr : r ∈ meanRows cols1 cols2 frame) :
    ∃ e ∈ frame, subKey cols1 cols2 e.1 = r.key := by
  unfold meanRows at hr
  rcases List.mem_map.1 hr with ⟨k, hk, rfl⟩
  rw [mem_sortByRank, List.mem_dedup, List.mem_map] at hk
  rcases hk with ⟨e, he, rfl⟩
  exact ⟨e, he, rfl⟩

theorem exists_meanRows_key {cols1 cols2 : List Col} {frame : List (List Val × Nat)}
    {e : List Val × Nat} (he : e ∈ frame) :
    ∃ r ∈ meanRows cols1 cols2 frame, r.key = subKey cols1 cols2 e.1 := by
  have hmem : subKey cols1 cols2 e.1 ∈
      sortByRank (keySortKey cols2) ((frame.map (fun e => subKey cols1 cols2 e.1)).dedup) :=
    (mem_sortByRank _ _ _).2 (List.mem_dedup.2 (List.mem_map_of_mem _ he))
  exact ⟨_, List.mem_map_of_mem _ hmem, rfl⟩

theorem meanRows_mean_zero {cols1 cols2 : List Col} {frame : List (List Val × Nat)}
    {r : MRow} (hr : r ∈ meanRows cols1 cols2 frame)
    (hz : ∀ e ∈ frame, subKey cols1 cols2 e.1 = r.key → e.2 = 0) :
    r.mean = 0 := by
  unfold meanRows at hr
  rcases List.mem_map.1 hr with ⟨k, hk, rfl⟩
  simp only
  have hsum : ((frame.filter (fun e => subKey cols1 cols2 e.1 == k)).map
      (fun e => (e.2 : ℚ))).sum = 0 := by
    apply List.sum_eq_zero
    intro q hq
    rcases List.mem_map.1 hq with ⟨e, he, rfl⟩
    have he1 := List.mem_filter.1 he
    have he2 : e.2 = 0 := hz e he1.1 (by simpa using he1.2)
    simp [he2]
  simp [hsum]

theorem mem_reindexed_counts {idx : List (List Val)} {cols : List Col}
    {dfif : List Incident} {e : List Val × Nat} :
    e ∈ reindexed_counts idx cols dfif ↔ ∃ k ∈ idx, e = (k, countAt cols dfif k) := by
  simp [reindexed_counts, eq_comm]

theorem flat_rows_key {dfi dfif : List Incident} {pc ac : List Col} {r : MRow}
    (hr : r ∈ flat_rows dfi dfif pc ac) :
    ∃ r0 ∈ dfi, r.key = keyOf ac r0 := by
  have hr2 := mem_order_categoricals.1 hr
  obtain ⟨e, he, hkey⟩ := meanRows_key_mem hr2
  obtain ⟨k, hk, rfl⟩ := mem_reindexed_counts.1 he
  obtain ⟨r0, hr0, rfl⟩ := mem_groupKeys.1 hk
  refine ⟨r0, hr0, ?_⟩
  rw [← hkey]
  exact subKey_keyOf r0 (fun c hc => List.mem_append_right _ hc)

theorem flat_rows_key_surj {dfi dfif : List Incident} {pc ac : List Col}
    {r0 : Incident} (hr0 : r0 ∈ dfi) :
    ∃ r ∈ flat_rows dfi dfif pc ac, r.key = keyOf ac r0 := by
  have hk : keyOf (pc ++ ac) r0 ∈ groupKeys (pc ++ ac) dfi :=
    mem_groupKeys.2 ⟨r0, hr0, rfl⟩
  have he : (keyOf (pc ++ ac) r0, countAt (pc ++ ac) dfif (keyOf (pc ++ ac) r0)) ∈
      reindexed_counts (groupKeys (pc ++ ac) dfi) (pc ++ ac) dfif :=
    mem_reindexed_counts.2 ⟨_, hk, rfl⟩
  obtain ⟨r, hrm, hkey⟩ := @exists_meanRows_key (pc ++ ac) ac _ _ he
  refine ⟨r, mem_order_categoricals.2 hrm, ?_⟩
  rw [hkey]
  exact subKey_keyOf r0 (fun c hc => List.mem_append_right _ hc)

/-- Sample incidents used to instantiate theorems with hypotheses. -/
def sample_fire : Incident :=
  ⟨1, "Fire", "2017-01-01", 2017, "07", "01", "52", "Sun", "Jan", 13001⟩

def sample_medical : Incident :=
  ⟨2, "Medical", "2017-01-02", 2017, "07", "02", "01", "Mon", "Jan", 13002⟩

def sample_fire18 : Incident :=
  ⟨3, "Fire", "2018-05-04", 2018, "12", "04", "18", "Fri", "May", 13001⟩

/-! ### Claim C7 -/

/-- C7: calling the time-series aggregator with an aggregation-unit,
pattern, or group value outside the fixed mapping tables raises (KeyError,
modelled as `none`) rather than returning a result. -/
theorem C7_unsupported_raises (dfi : List Incident) (agg pattern group : String)
    (types : List String) (locations : Option (List Nat))
    (h : pattern_mapping pattern = none ∨ agg_mapping agg = none ∨
      group_mapping group = none) :
    aggregate_data_for_time_series dfi agg pattern group types locations = none := by
  unfold aggregate_data_for_time_series
  rcases h with h | h | h
  · rw [h]
  · rw [h]
    cases pattern_mapping pattern <;> rfl
  · rw [h]
    cases pattern_mapping pattern <;> [rfl; (cases agg_mapping agg <;> rfl)]

/-- Witness for C7 at the unsupported aggregation unit "Minute". -/
theorem C7_witness :
    (pattern_mapping "Daily" = none ∨ agg_mapping "Minute" = none ∨
      group_mapping "None" = none) ∧
    aggregate_data_for_time_series [sample_fire] "Minute" "Daily" "None" [] none = none :=
  ⟨Or.inr (Or.inl rfl),
    C7_unsupported_raises [sample_fire] "Minute" "Daily" "None" [] none
      (Or.inr (Or.inl rfl))⟩

/-! ### Claim C8 -/

/-- C8: calling the aggregator a second time with identical arguments, on
the incident table exactly as the first call left it, yields the identical
result. -/
theorem C8_idempotent (dfi : List Incident) (agg pattern group : String)
    (types : List String) (locations : Option (List Nat)) :
    (aggregate_call_with_table dfi agg pattern group types locations).1 =
      (aggregate_call_with_table
        (aggregate_call_with_table dfi agg pattern group types locations).2
        agg pattern group types locations).1 := rfl

/-! ### Claim C9 -/

/-- C9: the aggregator leaves the incident table unchanged; filtering and
column additions act only on derived frames (see
`aggregate_call_with_table`). -/
theorem C9_table_unchanged (dfi : List Incident) (agg pattern group : String)
    (types : List String) (locations : Option (List Nat)) :
    (aggregate_call_with_table dfi agg pattern group types locations).2 = dfi := rfl

/-! ### Claim C10 -/

/-- C10: for a loader-produced table and any value the month slider can
take (its range is 1..12, iplotcreators.py line 164), filtering on
time_unit "month" compares the month names against the zero-padded
numeric string and returns an empty table. -/
theorem C10_month_slider_empty (data : List Incident) (value : Nat)
    (hwf : loader_month_invariant data) (h1 : 1 ≤ value) (h2 : value ≤ 12) :
    filter_on_slider_value data "month" value = some [] := by
  have hmonth : ∀ m ∈ month_categories, m ≠ zfill 2 (toString value) := by
    interval_cases value <;> decide
  unfold filter_on_slider_value
  rw [if_neg (by decide), if_neg (by decide), if_neg (by decide), if_pos rfl]
  refine congrArg some (List.filter_eq_nil_iff.2 ?_)
  intro r hr
  simp only [beq_iff_eq, Bool.not_eq_true]
  exact hmonth r.month (hwf r hr)

/-- Witness for C10 at a singleton table and slider value 5. -/
theorem C10_witness :
    loader_month_invariant [sample_fire] ∧ 1 ≤ 5 ∧ 5 ≤ 12 ∧
    filter_on_slider_value [sample_fire] "month" 5 = some [] := by
  have hwf : loader_month_invariant [sample_fire] := by
    intro r hr
    rcases List.mem_singleton.1 hr with rfl
    decide
  exact ⟨hwf, by decide, by decide,
    C10_month_slider_empty [sample_fire] 5 hwf (by decide) (by decide)⟩

/-! ### Claim C2 -/

/-- C2 counterexample: on a one-row table with an empty included-types
set, zero rows match the type filter, yet the Hour/Daily aggregation does
not return empty sequences: the hour observed in the unfiltered table is
reported with mean 0 (the filtered counts are reindexed onto the
unfiltered index with fill value 0, ihelpers.py lines 284-295). -/
theorem C2_counterexample :
    location_filter (type_filter [sample_fire] []) none = [] ∧
    aggregate_data_for_time_series [sample_fire] "Hour" "Daily" "None" [] none
      = some (.flat [.scalar (.str "07")] [0]) := by
  constructor
  · rfl
  · simp +decide [aggregate_data_for_time_series, pattern_mapping, agg_mapping,
      group_mapping, adjust_cols, type_filter, location_filter, flat_result,
      flat_rows, reindexed_counts, groupKeys, keyOf, colVal, countAt, meanRows,
      subKey, rowVal, order_categoricals, sortByRank, inSort, ordIns, skLe, skLt,
      ranksLt, pairLt, keySortKey, rowSortKey, add_x_column, keyRank, valRank,
      catRank, sample_fire]

/-- C2 amended: when zero rows survive the type and location filters but
the table itself is non-empty, the no-grouping aggregator returns, for any
supported unit and pattern, a non-empty x sequence (the category
combinations observed in the unfiltered table) with every y equal to 0;
empty sequences are returned only when the unfiltered table is empty. -/
theorem C2_empty_filter_zero_y (dfi : List Incident) (agg pattern : String)
    (types : List String) (locations : Option (List Nat))
    (aggCols0 patternCols0 : List Col)
    (hp : pattern_mapping pattern = some patternCols0)
    (ha : agg_mapping agg = some aggCols0)
    (hne : dfi ≠ [])
    (hemp : location_filter (type_filter dfi types) locations = []) :
    ∃ xs ys, aggregate_data_for_time_series dfi agg pattern "None" types locations
        = some (.flat xs ys) ∧ xs ≠ [] ∧ ∀ y ∈ ys, y = 0 := by
  have hg : group_mapping "None" = some none := rfl
  simp only [aggregate_data_for_time_series, hp, ha, hg]
  rw [hemp]
  refine ⟨_, _, rfl, ?_, ?_⟩
  · obtain ⟨r0, hr0⟩ := List.exists_mem_of_ne_nil dfi hne
    obtain ⟨r, hr, -⟩ := @flat_rows_key_surj dfi []
      (adjust_cols agg pattern aggCols0 patternCols0).2
      (adjust_cols agg pattern aggCols0 patternCols0).1 r0 hr0
    exact List.ne_nil_of_mem (List.mem_map_of_mem _ hr)
  · intro y hy
    rcases List.mem_map.1 hy with ⟨r, hr, rfl⟩
    apply meanRows_mean_zero (mem_order_categoricals.1 hr)
    intro e he _
    obtain ⟨k, -, rfl⟩ := mem_reindexed_counts.1 he
    rfl

/-- Witness for the amended C2 on a concrete one-row table. -/
theorem C2_witness :
    pattern_mapping "Daily" = some [.dim_datum_datum] ∧
    agg_mapping "Hour" = some [.hour] ∧
    [sample_fire] ≠ [] ∧
    location_filter (type_filter [sample_fire] []) none = [] ∧
    ∃ xs ys, aggregate_data_for_time_series [sample_fire] "Hour" "Daily" "None" [] none
        = some (.flat xs ys) ∧ xs ≠ [] ∧ ∀ y ∈ ys, y = 0 :=
  ⟨rfl, rfl, by decide, rfl,
    C2_empty_filter_zero_y [sample_fire] "Hour" "Daily" [] none [.hour]
      [.dim_datum_datum] rfl rfl (by decide) rfl⟩

/-! ### Claim C1 -/

/-- C1: for unit "Hour", pattern "Daily", no grouping and any type and
location filter, the x sequence consists exactly of the hour values
observed anywhere in the unfiltered table (every x entry is such an hour
scalar, every observed hour occurs, no unobserved hour occurs), and any
hour whose filtered subset is empty carries y value 0 instead of being
dropped. -/
theorem C1_hour_daily_category_completeness (dfi : List Incident)
    (types : List String) (locations : Option (List Nat)) :
    ∃ xs ys,
      aggregate_data_for_time_series dfi "Hour" "Daily" "None" types locations
        = some (.flat xs ys) ∧
      (∀ hs : String, XKey.scalar (.str hs) ∈ xs ↔ ∃ r ∈ dfi, r.hour = hs) ∧
      (∀ x ∈ xs, ∃ hs : String, x = XKey.scalar (.str hs)) ∧
      (∀ p ∈ xs.zip ys,
        (∀ r ∈ location_filter (type_filter dfi types) locations,
          XKey.scalar (.str r.hour) ≠ p.1) → p.2 = 0) := by
  have haddx : ∀ r0 : Incident,
      add_x_column [Col.hour] (keyOf [Col.hour] r0) = XKey.scalar (Val.str r0.hour) :=
    fun r0 => rfl
  have hred : aggregate_data_for_time_series dfi "Hour" "Daily" "None" types locations
      = some (.flat
          ((flat_rows dfi (location_filter (type_filter dfi types) locations)
              [Col.dim_datum_datum] [Col.hour]).map
            (fun r => add_x_column [Col.hour] r.key))
          ((flat_rows dfi (location_filter (type_filter dfi types) locations)
              [Col.dim_datum_datum] [Col.hour]).map (fun r => r.mean))) := rfl
  refine ⟨_, _, hred, ?_, ?_, ?_⟩
  · intro hs
    constructor
    · intro hx
      rcases List.mem_map.1 hx with ⟨r, hr, hxr⟩
      obtain ⟨r0, hr0, hkey⟩ := flat_rows_key hr
      refine ⟨r0, hr0, ?_⟩
      rw [hkey, haddx] at hxr
      simpa using hxr
    · rintro ⟨r0, hr0, rfl⟩
      obtain ⟨r, hr, hkey⟩ := @flat_rows_key_surj dfi
        (location_filter (type_filter dfi types) locations)
        [Col.dim_datum_datum] [Col.hour] r0 hr0
      have hx : add_x_column [Col.hour] r.key = XKey.scalar (.str r0.hour) := by
        rw [hkey, haddx]
      exact hx ▸ List.mem_map_of_mem _ hr
  · intro x hx
    rcases List.mem_map.1 hx with ⟨r, hr, hxr⟩
    obtain ⟨r0, hr0, hkey⟩ := flat_rows_key hr
    refine ⟨r0.hour, ?_⟩
    rw [← hxr, hkey, haddx]
  · intro p hp hno
    rw [List.zip_map'] at hp
    rcases List.mem_map.1 hp with ⟨r, hr, rfl⟩
    simp only
    apply meanRows_mean_zero (mem_order_categoricals.1 hr)
    intro e he hsub
    obtain ⟨k, hk, rfl⟩ := mem_reindexed_counts.1 he
    dsimp only at hsub ⊢
    simp only [List.singleton_append] at hsub
    rw [countAt_eq_zero]
    intro r2 hr2 hkeq
    simp only [List.singleton_append] at hkeq
    have hsk : subKey [Col.dim_datum_datum, Col.hour] [Col.hour] k
        = keyOf [Col.hour] r2 := by
      rw [← hkeq]
      exact subKey_keyOf r2 (by intro c hc; fin_cases hc; simp)
    rw [hsk] at hsub
    apply hno r2 hr2
    rw [← hsub, haddx]

/-! ### Claim C4 -/

/-- The aggregation units the dashboard allows for each pattern
(idashboard.py lines 38-43, feasible_combos). -/
def feasible_combos_agg : String → List String
  | "Daily" => ["Hour"]
  | "Weekly" => ["Hour", "Day"]
  | "Yearly" => ["Day", "Week", "Month"]
  | _ => []

/-- The grouping dimensions the dashboard allows for each pattern
(idashboard.py lines 38-43, feasible_combos). -/
def feasible_combos_group : String → List String
  | "Daily" => ["Type", "Day of Week", "Year", "None"]
  | "Weekly" => ["Type", "Year", "None"]
  | "Yearly" => ["Type", "Year", "None"]
  | _ => []

/-- The weekday position (0 for Mon .. 6 for Sun) of an x entry that is a
weekday-name scalar; other entries carry no weekday key. -/
def dayKeyRank : XKey → Option Nat
  | .scalar (.str s) =>
      if s ∈ day_categories then some (day_categories.indexOf s) else none
  | _ => none

/-- The weekday positions of the weekday keys of an x sequence, in
sequence order. -/
def weekdayRanks (xs : List XKey) : List Nat := xs.filterMap dayKeyRank

/-- The output presents its weekday keys in the categorical Mon..Sun
order: in every x sequence (the single one, or each per-group one) the
weekday positions are nondecreasing. -/
def TSOut.weekdaySorted : TSOut → Prop
  | .flat xs _ => (weekdayRanks xs).Pairwise (· ≤ ·)
  | .grouped xss _ _ => ∀ xs ∈ xss, (weekdayRanks xs).Pairwise (· ≤ ·)

theorem keyRank_cons (c : Col) (cs : List Col) (v : Val) (vs : List Val) :
    keyRank (c :: cs) (v :: vs) = valRank c v :: keyRank cs vs := rfl

theorem skLe_head_rank {gtail : List Col} {u v : MRow} (hu : u.key ≠ []) (hv : v.key ≠ [])
    (h : skLe (rowSortKey (Col.day_name :: gtail)) u v = true) :
    (valRank Col.day_name (u.key.headD (.str ""))).1
      ≤ (valRank Col.day_name (v.key.headD (.str ""))).1 := by
  obtain ⟨a, as, hua⟩ := List.exists_cons_of_ne_nil hu
  obtain ⟨b, bs, hvb⟩ := List.exists_cons_of_ne_nil hv
  rw [skLe, Bool.not_eq_true'] at h
  rw [skLt, Bool.or_eq_false_iff] at h
  obtain ⟨hrank, -⟩ := h
  rw [rowSortKey, rowSortKey] at hrank
  dsimp only at hrank
  rw [hua, hvb, keyRank_cons, keyRank_cons] at hrank
  rw [hua, hvb]
  simp only [List.headD_cons]
  by_cases heq : valRank Col.day_name b = valRank Col.day_name a
  · rw [heq]
  · rw [ranksLt, if_neg heq] at hrank
    rw [pairLt, Bool.or_eq_false_iff] at hrank
    obtain ⟨h1, -⟩ := hrank
    exact le_of_not_lt (by simpa using h1)

theorem weekdayRanks_sorted_core (gtail : List Col) (rows : List MRow)
    (hsorted : rows.Pairwise
      (fun u v => skLe (rowSortKey (Col.day_name :: gtail)) u v = true)) :
    (weekdayRanks (rows.map
      (fun r => XKey.scalar (r.key.headD (.str ""))))).Pairwise (· ≤ ·) := by
  rw [weekdayRanks, List.filterMap_map]
  apply List.Pairwise.filterMap _ ?_ hsorted
  intro u v huv x hx y hy
  simp only [Function.comp] at hx hy
  have keyne : ∀ (w : MRow) (z : Nat),
      dayKeyRank (XKey.scalar (w.key.headD (.str ""))) = some z →
      w.key ≠ [] ∧ (valRank Col.day_name (w.key.headD (.str ""))).1 = z := by
    intro w z hz
    cases hval : w.key.headD (.str "") with
    | nat n => rw [hval] at hz; simp [dayKeyRank] at hz
    | str s =>
        rw [hval] at hz
        rw [dayKeyRank] at hz
        by_cases hmem : s ∈ day_categories
        · rw [if_pos hmem] at hz
          have hzz : day_categories.indexOf s = z := by simpa using hz
          constructor
          · intro hnil
            rw [hnil] at hval
            simp only [List.headD_nil, Val.str.injEq] at hval
            rw [← hval] at hmem
            simp [day_categories] at hmem
          · exact hzz
        · rw [if_neg hmem] at hz
          simp at hz
  obtain ⟨hune, hux⟩ := keyne u x hx
  obtain ⟨hvne, hvy⟩ := keyne v y hy
  rw [← hux, ← hvy]
  exact skLe_head_rank hune hvne huv

theorem weekdayRanks_of_tup (xs : List XKey) (h : ∀ x ∈ xs, ∃ vs, x = XKey.tup vs) :
    weekdayRanks xs = [] := by
  induction xs with
  | nil => rfl
  | cons x xs ih =>
      obtain ⟨vs, rfl⟩ := h _ (List.mem_cons_self x xs)
      rw [weekdayRanks, List.filterMap_cons]
      have hnone : dayKeyRank (XKey.tup vs) = none := rfl
      rw [hnone]
      exact ih (fun y hy => h y (List.mem_cons_of_mem _ hy))

theorem flat_day_sorted (dfi dfif : List Incident) (pc : List Col) :
    (flat_result dfi dfif pc [Col.day_name]).weekdaySorted := by
  show (weekdayRanks ((flat_rows dfi dfif pc [Col.day_name]).map
    (fun r => add_x_column [Col.day_name] r.key))).Pairwise (· ≤ ·)
  have hconv : (flat_rows dfi dfif pc [Col.day_name]).map
        (fun r => add_x_column [Col.day_name] r.key)
      = (flat_rows dfi dfif pc [Col.day_name]).map
        (fun r => XKey.scalar (r.key.headD (.str ""))) := rfl
  rw [hconv]
  exact weekdayRanks_sorted_core [] _
    (pairwise_sortByRank (rowSortKey [Col.day_name]) _)

theorem grouped_day_sorted (gcols : List Col) (rows : List MRow)
    (hsorted : rows.Pairwise
      (fun u v => skLe (rowSortKey (Col.day_name :: gcols)) u v = true)) :
    (group_result [Col.day_name] gcols rows).weekdaySorted := by
  show ∀ xs ∈ _, (weekdayRanks xs).Pairwise (· ≤ ·)
  intro xs hxs
  rcases List.mem_map.1 hxs with ⟨g, hg, rfl⟩
  have hconv : (rows.filter
        (fun r => r.key.drop ([Col.day_name] : List Col).length == g)).map
        (fun r => add_x_column [Col.day_name] (r.key.take ([Col.day_name] : List Col).length))
      = (rows.filter
        (fun r => r.key.drop ([Col.day_name] : List Col).length == g)).map
        (fun r => XKey.scalar (r.key.headD (.str ""))) := by
    apply List.map_congr_left
    intro r hr
    cases hk : r.key with
    | nil => rfl
    | cons a as => rfl
  rw [hconv]
  exact weekdayRanks_sorted_core gcols _ (hsorted.filter _)

theorem flat_tup_sorted (dfi dfif : List Incident) (pc ac : List Col)
    (hlen : 1 < ac.length) :
    (flat_result dfi dfif pc ac).weekdaySorted := by
  show (weekdayRanks ((flat_rows dfi dfif pc ac).map
    (fun r => add_x_column ac r.key))).Pairwise (· ≤ ·)
  rw [weekdayRanks_of_tup]
  · exact List.Pairwise.nil
  · intro x hx
    rcases List.mem_map.1 hx with ⟨r, -, rfl⟩
    exact ⟨r.key, by rw [add_x_column, if_pos hlen]⟩

theorem grouped_tup_sorted (ac gcols : List Col) (rows : List MRow)
    (hlen : 1 < ac.length) :
    (group_result ac gcols rows).weekdaySorted := by
  show ∀ xs ∈ _, (weekdayRanks xs).Pairwise (· ≤ ·)
  intro xs hxs
  rcases List.mem_map.1 hxs with ⟨g, hg, rfl⟩
  rw [weekdayRanks_of_tup]
  · exact List.Pairwise.nil
  · intro x hx
    rcases List.mem_map.1 hx with ⟨r, -, rfl⟩
    exact ⟨r.key.take ac.length, by rw [add_x_column, if_pos hlen]⟩

theorem sub_rows_pairwise (dfi dfif : List Incident) (pc ac gcols : List Col) :
    (sub_rows dfi dfif pc ac gcols).Pairwise
      (fun u v => skLe (rowSortKey (ac ++ gcols)) u v = true) :=
  pairwise_sortByRank _ _

theorem full_rows_pairwise (dfif : List Incident) (pc ac gcols : List Col)
    (idx : List (List Val)) :
    (full_rows dfif pc ac gcols idx).Pairwise
      (fun u v => skLe (rowSortKey (ac ++ gcols)) u v = true) :=
  pairwise_sortByRank _ _

/-- C4: for unit "Day" with any pattern and grouping the dashboard
supports for it (feasible_combos), every output the aggregator returns
presents its weekday keys in the categorical Mon..Sun order, in the x
sequence and in each per-group x sequence. -/
theorem C4_weekday_categorical_order (dfi : List Incident) (types : List String)
    (locations : Option (List Nat)) (pattern group : String)
    (hpat : "Day" ∈ feasible_combos_agg pattern)
    (hgrp : group ∈ feasible_combos_group pattern) :
    ∀ out, aggregate_data_for_time_series dfi "Day" pattern group types locations
        = some out → out.weekdaySorted := by
  intro out hout
  unfold feasible_combos_agg at hpat
  split at hpat
  · simp at hpat
  · -- pattern = "Weekly"
    unfold feasible_combos_group at hgrp
    have hgr : group = "Type" ∨ group = "Year" ∨ group = "None" := by
      simpa using hgrp
    rcases hgr with rfl | rfl | rfl
    · have hred : aggregate_data_for_time_series dfi "Day" "Weekly" "Type" types locations =
          (match create_complete_index dfi
              ([Col.dim_datum_jaar, Col.week_nr] ++ [Col.day_name])
              (factorsOf (location_filter (type_filter dfi types) locations)
                [Col.dim_incident_incident_type]) with
            | none => none
            | some idx => some (group_result_full
                (location_filter (type_filter dfi types) locations)
                [Col.dim_datum_jaar, Col.week_nr] [Col.day_name]
                [Col.dim_incident_incident_type] idx)) := rfl
      rw [hred] at hout
      rcases hcc : create_complete_index dfi
          ([Col.dim_datum_jaar, Col.week_nr] ++ [Col.day_name])
          (factorsOf (location_filter (type_filter dfi types) locations)
            [Col.dim_incident_incident_type]) with _ | idx
      · rw [hcc] at hout
        exact absurd hout (by simp)
      · rw [hcc] at hout
        dsimp only at hout
        exact (Option.some.inj hout) ▸
          grouped_day_sorted [Col.dim_incident_incident_type] _
            (full_rows_pairwise (location_filter (type_filter dfi types) locations)
              [Col.dim_datum_jaar, Col.week_nr] [Col.day_name]
              [Col.dim_incident_incident_type] idx)
    · have hred : aggregate_data_for_time_series dfi "Day" "Weekly" "Year" types locations =
          some (group_result_sub dfi (location_filter (type_filter dfi types) locations)
            [Col.dim_datum_jaar, Col.week_nr] [Col.day_name] [Col.dim_datum_jaar]) := rfl
      rw [hred] at hout
      exact (Option.some.inj hout) ▸
        grouped_day_sorted [Col.dim_datum_jaar] _
          (sub_rows_pairwise dfi (location_filter (type_filter dfi types) locations)
            [Col.dim_datum_jaar, Col.week_nr] [Col.day_name] [Col.dim_datum_jaar])
    · have hred : aggregate_data_for_time_series dfi "Day" "Weekly" "None" types locations =
          some (flat_result dfi (location_filter (type_filter dfi types) locations)
            [Col.dim_datum_jaar, Col.week_nr] [Col.day_name]) := rfl
      rw [hred] at hout
      exact (Option.some.inj hout) ▸ flat_day_sorted dfi _ _
  · -- pattern = "Yearly"
    unfold feasible_combos_group at hgrp
    have hgr : group = "Type" ∨ group = "Year" ∨ group = "None" := by
      simpa using hgrp
    rcases hgr with rfl | rfl | rfl
    · have hred : aggregate_data_for_time_series dfi "Day" "Yearly" "Type" types locations =
          (match create_complete_index dfi ([Col.dim_datum_jaar] ++ [Col.month, Col.day_nr])
              (factorsOf (location_filter (type_filter dfi types) locations)
                [Col.dim_incident_incident_type]) with
            | none => none
            | some idx => some (group_result_full
                (location_filter (type_filter dfi types) locations)
                [Col.dim_datum_jaar] [Col.month, Col.day_nr]
                [Col.dim_incident_incident_type] idx)) := rfl
      rw [hred] at hout
      rcases hcc : create_complete_index dfi ([Col.dim_datum_jaar] ++ [Col.month, Col.day_nr])
          (factorsOf (location_filter (type_filter dfi types) locations)
            [Col.dim_incident_incident_type]) with _ | idx
      · rw [hcc] at hout
        exact absurd hout (by simp)
      · rw [hcc] at hout
        dsimp only at hout
        exact (Option.some.inj hout) ▸
          grouped_tup_sorted [Col.month, Col.day_nr] [Col.dim_incident_incident_type] _
            (by decide)
    · have hred : aggregate_data_for_time_series dfi "Day" "Yearly" "Year" types locations =
          some (group_result_sub dfi (location_filter (type_filter dfi types) locations)
            [Col.dim_datum_jaar] [Col.month, Col.day_nr] [Col.dim_datum_jaar]) := rfl
      rw [hred] at hout
      exact (Option.some.inj hout) ▸
        grouped_tup_sorted [Col.month, Col.day_nr] [Col.dim_datum_jaar] _ (by decide)
    · have hred : aggregate_data_for_time_series dfi "Day" "Yearly" "None" types locations =
          some (flat_result dfi (location_filter (type_filter dfi types) locations)
            [Col.dim_datum_jaar] [Col.month, Col.day_nr]) := rfl
      rw [hred] at hout
      exact (Option.some.inj hout) ▸ flat_tup_sorted dfi _ _ _ (by decide)
  · simp at hpat

/-! ### Claim C5 -/

/-- C5: with unit "Hour" and pattern "Weekly" the aggregation column set
expands to (weekday, hour), so every ungrouped x key is a two-element
tuple of a weekday name and an observed hour string; with pattern
"Daily" every x key is the scalar hour string. -/
theorem C5_composite_vs_scalar_keys (dfi : List Incident) (types : List String)
    (locations : Option (List Nat)) (hwf : loader_day_invariant dfi) :
    (∃ xs ys, aggregate_data_for_time_series dfi "Hour" "Weekly" "None" types locations
        = some (.flat xs ys) ∧
      ∀ x ∈ xs, ∃ d hs : String, x = .tup [.str d, .str hs] ∧ d ∈ day_categories ∧
        ∃ r ∈ dfi, r.day_name = d ∧ r.hour = hs) ∧
    (∃ xs ys, aggregate_data_for_time_series dfi "Hour" "Daily" "None" types locations
        = some (.flat xs ys) ∧
      ∀ x ∈ xs, ∃ hs : String, x = .scalar (.str hs) ∧ ∃ r ∈ dfi, r.hour = hs) := by
  constructor
  · have hred : aggregate_data_for_time_series dfi "Hour" "Weekly" "None" types locations
        = some (.flat
            ((flat_rows dfi (location_filter (type_filter dfi types) locations)
                [Col.dim_datum_jaar, Col.week_nr] [Col.day_name, Col.hour]).map
              (fun r => add_x_column [Col.day_name, Col.hour] r.key))
            ((flat_rows dfi (location_filter (type_filter dfi types) locations)
                [Col.dim_datum_jaar, Col.week_nr] [Col.day_name, Col.hour]).map
              (fun r => r.mean))) := rfl
    refine ⟨_, _, hred, ?_⟩
    intro x hx
    rcases List.mem_map.1 hx with ⟨r, hr, hxr⟩
    obtain ⟨r0, hr0, hkey⟩ := flat_rows_key hr
    refine ⟨r0.day_name, r0.hour, ?_, hwf r0 hr0, r0, hr0, rfl, rfl⟩
    rw [← hxr, hkey]
    rfl
  · have hred : aggregate_data_for_time_series dfi "Hour" "Daily" "None" types locations
        = some (.flat
            ((flat_rows dfi (location_filter (type_filter dfi types) locations)
                [Col.dim_datum_datum] [Col.hour]).map
              (fun r => add_x_column [Col.hour] r.key))
            ((flat_rows dfi (location_filter (type_filter dfi types) locations)
                [Col.dim_datum_datum] [Col.hour]).map (fun r => r.mean))) := rfl
    refine ⟨_, _, hred, ?_⟩
    intro x hx
    rcases List.mem_map.1 hx with ⟨r, hr, hxr⟩
    obtain ⟨r0, hr0, hkey⟩ := flat_rows_key hr
    refine ⟨r0.hour, ?_, r0, hr0, rfl⟩
    rw [← hxr, hkey]
    rfl

/-- Witness for C5 on a concrete one-row table. -/
theorem C5_witness :
    loader_day_invariant [sample_fire] ∧
    ((∃ xs ys, aggregate_data_for_time_series [sample_fire] "Hour" "Weekly" "None"
        ["Fire"] none = some (.flat xs ys) ∧
      ∀ x ∈ xs, ∃ d hs : String, x = .tup [.str d, .str hs] ∧ d ∈ day_categories ∧
        ∃ r ∈ [sample_fire], r.day_name = d ∧ r.hour = hs) ∧
    (∃ xs ys, aggregate_data_for_time_series [sample_fire] "Hour" "Daily" "None"
        ["Fire"] none = some (.flat xs ys) ∧
      ∀ x ∈ xs, ∃ hs : String, x = .scalar (.str hs) ∧ ∃ r ∈ [sample_fire], r.hour = hs)) := by
  have hwf : loader_day_invariant [sample_fire] := by
    intro r hr
    rcases List.mem_singleton.1 hr with rfl
    decide
  exact ⟨hwf, C5_composite_vs_scalar_keys [sample_fire] ["Fire"] none hwf⟩

/-! ### Claim C3 -/

/-- C3 counterexample: with one incident in zone 13001 and a zone table
also containing zone 42, the output of the geo aggregator has no row for
zone 42 at all: the left side of the merge is the grouped incident
counts (ihelpers.py line 146), so zones with zero incidents are dropped
rather than kept with rate 0. -/
theorem C3_counterexample :
    (⟨42, "b"⟩ : Zone) ∈ [(⟨13001, "a"⟩ : Zone), ⟨42, "b"⟩] ∧
    prepare_data_for_geoplot [sample_fire] [⟨13001, "a"⟩, ⟨42, "b"⟩]
      = [⟨13001, 1, "a"⟩] := by
  refine ⟨by decide, ?_⟩
  simp +decide [prepare_data_for_geoplot, sortByRank, inSort, ordIns, skLe, skLt,
    ranksLt, pairLt, sample_fire, List.find?]

/-- Forward characterization of the geo aggregator output: every output
row comes from an observed zone code with a successful zone join, and its
rate is that zone code incident count. -/
theorem prepare_geo_forward (incidents : List Incident) (vakken : List Zone)
    {gr : GeoRow} (hgr : gr ∈ prepare_data_for_geoplot incidents vakken) :
    ∃ v, v ∈ (incidents.map (fun r => r.hub_vak_bk)).dedup ∧
      (vakken.find? (fun z => z.vak == v)).isSome = true ∧
      gr.location_id = v ∧
      gr.incident_rate = ((incidents.filter
        (fun r => r.hub_vak_bk == v)).length : ℚ) := by
  simp only [prepare_data_for_geoplot] at hgr
  rcases List.mem_map.1 hgr with ⟨q, hq, rfl⟩
  rcases List.mem_filter.1 hq with ⟨hq1, hq2⟩
  rcases List.mem_map.1 hq1 with ⟨p, hp, rfl⟩
  rcases List.mem_map.1 hp with ⟨v, hv, rfl⟩
  exact ⟨v, (mem_sortByRank _ _ _).1 hv, by simpa using hq2, rfl, rfl⟩

/-- Existence direction: every observed zone code whose join succeeds
produces an output row. -/
theorem prepare_geo_exists (incidents : List Incident) (vakken : List Zone)
    {v : Nat} (hv : v ∈ (incidents.map (fun r => r.hub_vak_bk)).dedup)
    (hfind : (vakken.find? (fun z => z.vak == v)).isSome = true) :
    ∃ gr ∈ prepare_data_for_geoplot incidents vakken, gr.location_id = v := by
  simp only [prepare_data_for_geoplot]
  have hv2 : v ∈ sortByRank (fun v => ([(v, "")], 0))
      ((incidents.map (fun r => r.hub_vak_bk)).dedup) :=
    (mem_sortByRank _ _ _).2 hv
  have hp := List.mem_map_of_mem
    (fun v => (v, (incidents.filter (fun r => r.hub_vak_bk == v)).length)) hv2
  have hq := List.mem_map_of_mem
    (fun p => (p, vakken.find? (fun z => z.vak == p.1))) hp
  have hkeep : ((v, (incidents.filter (fun r => r.hub_vak_bk == v)).length),
      vakken.find? (fun z => z.vak == v)) ∈
      (((sortByRank (fun v => ([(v, "")], 0))
        ((incidents.map (fun r => r.hub_vak_bk)).dedup)).map
        (fun v => (v, (incidents.filter (fun r => r.hub_vak_bk == v)).length))).map
        (fun p => (p, vakken.find? (fun z => z.vak == p.1)))).filter
        (fun q => q.2.isSome) :=
    List.mem_filter.2 ⟨hq, hfind⟩
  have hmm := List.mem_map_of_mem (fun q =>
    ({ location_id := q.1.1, incident_rate := (q.1.2 : ℚ),
       geometry := (q.2.map (fun z => z.geometry_lonlat)).getD "" } : GeoRow)) hkeep
  exact ⟨_, hmm, rfl⟩

/-- C3 amended: the geo aggregator returns one row per zone that has at
least one incident and appears in the zone table; such a row carries the
exact incident count of its zone; zones with zero incidents are dropped
(no output row carries their id). -/
theorem C3_zone_rows (incidents : List Incident) (vakken : List Zone) :
    (∀ gr ∈ prepare_data_for_geoplot incidents vakken,
        (∃ z ∈ vakken, z.vak = gr.location_id) ∧
        gr.incident_rate = ((incidents.filter
          (fun r => r.hub_vak_bk == gr.location_id)).length : ℚ) ∧
        (∃ r ∈ incidents, r.hub_vak_bk = gr.location_id)) ∧
    (∀ z ∈ vakken, (∃ r ∈ incidents, r.hub_vak_bk = z.vak) →
        ∃ gr ∈ prepare_data_for_geoplot incidents vakken, gr.location_id = z.vak) ∧
    (∀ z ∈ vakken, (∀ r ∈ incidents, r.hub_vak_bk ≠ z.vak) →
        ∀ gr ∈ prepare_data_for_geoplot incidents vakken, gr.location_id ≠ z.vak) := by
  refine ⟨?_, ?_, ?_⟩
  · intro gr hgr
    obtain ⟨v, hv, hfind, hloc, hrate⟩ := prepare_geo_forward incidents vakken hgr
    refine ⟨?_, ?_, ?_⟩
    · obtain ⟨z, hz⟩ := Option.isSome_iff_exists.1 hfind
      refine ⟨z, List.mem_of_find?_eq_some hz, ?_⟩
      have := List.find?_some hz
      rw [hloc]
      simpa using this
    · rw [hloc]
      exact hrate
    · rw [hloc]
      rcases List.mem_dedup.1 hv with hv2
      rcases List.mem_map.1 hv2 with ⟨r, hr, rfl⟩
      exact ⟨r, hr, rfl⟩
  · intro z hz ⟨r, hr, hrv⟩
    apply prepare_geo_exists incidents vakken
      (v := z.vak)
    · exact List.mem_dedup.2 (List.mem_map.2 ⟨r, hr, hrv⟩)
    · rw [List.find?_isSome]
      exact ⟨z, hz, by simp⟩
  · intro z hz hnone gr hgr hloc
    obtain ⟨v, hv, -, hlv, -⟩ := prepare_geo_forward incidents vakken hgr
    rcases List.mem_map.1 (List.mem_dedup.1 hv) with ⟨r, hr, rfl⟩
    exact hnone r hr (by rw [← hloc, hlv])

/-! ### Claim C6 -/

theorem perm_ordIns {α : Type} (le : α → α → Bool) (a : α) (l : List α) :
    List.Perm (ordIns le a l) (a :: l) := by
  induction l with
  | nil => exact List.Perm.refl _
  | cons b l ih =>
      by_cases h : le a b = true
      · rw [ordIns, if_pos h]
      · rw [ordIns, if_neg h]
        exact (ih.cons b).trans (List.Perm.swap a b l)

theorem perm_inSort {α : Type} (le : α → α → Bool) (l : List α) :
    List.Perm (inSort le l) l := by
  induction l with
  | nil => exact List.Perm.refl _
  | cons a l ih => exact (perm_ordIns le a (inSort le l)).trans (ih.cons a)

theorem length_sortByRank {α : Type} (f : α → List (Nat × String) × ℚ) (l : List α) :
    (sortByRank f l).length = l.length :=
  (perm_inSort _ _).length_eq

theorem nodup_sortByRank {α : Type} (f : α → List (Nat × String) × ℚ) {l : List α}
    (h : l.Nodup) : (sortByRank f l).Nodup :=
  (perm_inSort (skLe f) l).nodup_iff.2 h

/-- Any unsupported mapping key makes the aggregator raise (helper shared
by several proofs). -/
theorem aggregate_mapping_none {dfi : List Incident} {agg pattern group : String}
    {types : List String} {locations : Option (List Nat)}
    (h : pattern_mapping pattern = none ∨ agg_mapping agg = none ∨
      group_mapping group = none) :
    aggregate_data_for_time_series dfi agg pattern group types locations = none := by
  unfold aggregate_data_for_time_series
  rcases h with h | h | h
  · rw [h]
  · rw [h]
    cases pattern_mapping pattern <;> rfl
  · rw [h]
    cases pattern_mapping pattern <;> [rfl; (cases agg_mapping agg <;> rfl)]

/-- Every result the aggregator returns is a flat result (no grouping) or
a per-group split result. -/
theorem aggregate_out_cases {dfi : List Incident} {agg pattern group : String}
    {types : List String} {locations : Option (List Nat)} {out : TSOut}
    (h : aggregate_data_for_time_series dfi agg pattern group types locations
      = some out) :
    (group_mapping group = some none ∧ ∃ b pc ac, out = flat_result dfi b pc ac) ∨
    (∃ gcols, group_mapping group = some (some gcols) ∧
      ∃ ac rows, out = group_result ac gcols rows) := by
  rcases hp : pattern_mapping pattern with _ | pcols
  · rw [aggregate_mapping_none (Or.inl hp)] at h
    cases h
  rcases ha : agg_mapping agg with _ | acols
  · rw [aggregate_mapping_none (Or.inr (Or.inl ha))] at h
    cases h
  rcases hg : group_mapping group with _ | gopt
  · rw [aggregate_mapping_none (Or.inr (Or.inr hg))] at h
    cases h
  unfold aggregate_data_for_time_series at h
  rw [hp, ha, hg] at h
  rcases gopt with _ | gcols
  · dsimp only at h
    exact Or.inl ⟨rfl, _, _, _, (Option.some.inj h).symm⟩
  · dsimp only at h
    split at h
    · exact Or.inr ⟨gcols, rfl, _, _, (Option.some.inj h).symm⟩
    · split at h
      · cases h
      · exact Or.inr ⟨gcols, rfl, _, _, (Option.some.inj h).symm⟩

theorem flat_result_len_eq (a b : List Incident) (pc ac : List Col) :
    (flat_result a b pc ac).xLen = (flat_result a b pc ac).yLen := by
  simp [flat_result, TSOut.xLen, TSOut.yLen]

theorem group_result_len_eq (ac gcols : List Col) (rows : List MRow) :
    (group_result ac gcols rows).xLen = (group_result ac gcols rows).yLen := by
  simp [group_result, TSOut.xLen, TSOut.yLen]

theorem itype_not_mem_agg_cols {agg : String} {acols : List Col}
    (ha : agg_mapping agg = some acols) :
    Col.dim_incident_incident_type ∉ acols := by
  unfold agg_mapping at ha
  split at ha <;> first | (cases ha; decide) | cases ha

theorem itype_not_mem_pattern_cols {pattern : String} {pcols : List Col}
    (hp : pattern_mapping pattern = some pcols) :
    Col.dim_incident_incident_type ∉ pcols := by
  unfold pattern_mapping at hp
  split at hp <;> first | (cases hp; decide) | cases hp

theorem itype_not_mem_adjust {agg pattern : String} {acols pcols : List Col}
    (ha : agg_mapping agg = some acols) (hp : pattern_mapping pattern = some pcols) :
    Col.dim_incident_incident_type ∉ (adjust_cols agg pattern acols pcols).1 ∧
    Col.dim_incident_incident_type ∉ (adjust_cols agg pattern acols pcols).2 := by
  have h1 := itype_not_mem_agg_cols ha
  have h2 := itype_not_mem_pattern_cols hp
  unfold adjust_cols
  split_ifs <;>
    exact ⟨by first | decide | simpa using h1, by first | decide | simpa using h2⟩

theorem keyOf_length (cols : List Col) (r : Incident) :
    (keyOf cols r).length = cols.length :=
  List.length_map _ _

theorem create_complete_index_some {data : List Incident} {cols : List Col}
    {factors : List Val} {idx : List (List Val)}
    (h : create_complete_index data cols factors = some idx) :
    (∀ k ∈ idx, ∃ k0 ∈ groupKeys cols data, ∃ f ∈ factors, k = k0 ++ [f]) ∧
    (∀ k0 ∈ groupKeys cols data, ∀ f ∈ factors, k0 ++ [f] ∈ idx) ∧
    groupKeys cols data ≠ [] := by
  simp only [create_complete_index] at h
  split at h
  · cases h
  · rename_i hne
    cases Option.some.inj h
    refine ⟨?_, ?_, ?_⟩
    · intro k hk
      rcases List.mem_flatMap.1 hk with ⟨k0, hk0, hk1⟩
      rcases List.mem_map.1 hk1 with ⟨f, hf, rfl⟩
      exact ⟨k0, hk0, f, hf, rfl⟩
    · intro k0 hk0 f hf
      exact List.mem_flatMap.2 ⟨k0, hk0, List.mem_map_of_mem _ hf⟩
    · intro hnil
      exact hne (by rw [hnil]; rfl)

theorem subKey_append (cols1 a b : List Col) (k : List Val) :
    subKey cols1 (a ++ b) k = subKey cols1 a k ++ subKey cols1 b k :=
  List.map_append _ _ _

theorem rowVal_full {pc ac : List Col} {g : Col} (hg : g ∉ pc ++ ac)
    {k0 : List Val} (hk0 : k0.length = (pc ++ ac).length) (f : Val) :
    rowVal (pc ++ ac ++ [g]) (k0 ++ [f]) g = f := by
  unfold rowVal
  rw [List.indexOf_append_of_not_mem hg, List.indexOf_cons_self]
  rw [List.getD_append_right _ _ _ _ (by omega)]
  have hz : (pc ++ ac).length + 0 - k0.length = 0 := by omega
  rw [hz]
  rfl

theorem subKey_full_drop {pc ac : List Col} {g : Col} (hg : g ∉ pc ++ ac)
    {k0 : List Val} (hk0 : k0.length = (pc ++ ac).length) (f : Val) :
    (subKey (pc ++ ac ++ [g]) (ac ++ [g]) (k0 ++ [f])).drop ac.length = [f] := by
  rw [subKey_append]
  rw [List.drop_left' (by rw [subKey, List.length_map])]
  show [rowVal (pc ++ ac ++ [g]) (k0 ++ [f]) g] = [f]
  rw [rowVal_full hg hk0]

theorem full_rows_key {dfif : List Incident} {pc ac gcols : List Col}
    {idx : List (List Val)} {r : MRow} (hr : r ∈ full_rows dfif pc ac gcols idx) :
    ∃ k ∈ idx, r.key = subKey (pc ++ ac ++ gcols) (ac ++ gcols) k := by
  have hr2 := mem_order_categoricals.1 hr
  obtain ⟨e, he, hkey⟩ := meanRows_key_mem hr2
  obtain ⟨k, hk, rfl⟩ := mem_reindexed_counts.1 he
  exact ⟨k, hk, hkey.symm⟩

theorem full_rows_key_surj {dfif : List Incident} {pc ac gcols : List Col}
    {idx : List (List Val)} {k : List Val} (hk : k ∈ idx) :
    ∃ r ∈ full_rows dfif pc ac gcols idx,
      r.key = subKey (pc ++ ac ++ gcols) (ac ++ gcols) k := by
  have he : (k, countAt (pc ++ ac ++ gcols) dfif k) ∈
      reindexed_counts idx (pc ++ ac ++ gcols) dfif :=
    mem_reindexed_counts.2 ⟨k, hk, rfl⟩
  obtain ⟨r, hrm, hkey⟩ := @exists_meanRows_key (pc ++ ac ++ gcols) (ac ++ gcols) _ _ he
  exact ⟨r, mem_order_categoricals.2 hrm, hkey⟩

theorem full_labels_length (dfi dfif : List Incident) (pc ac : List Col) (g : Col)
    (idx : List (List Val)) (hgpc : g ∉ pc) (hgac : g ∉ ac)
    (hidx : create_complete_index dfi (pc ++ ac) (factorsOf dfif [g]) = some idx) :
    (group_result ac [g] (full_rows dfif pc ac [g] idx)).labelList.length
      = ((dfif.map (fun r => colVal r g)).dedup).length := by
  obtain ⟨hfwd, hbwd, hgknil⟩ := create_complete_index_some hidx
  have hgnotin : g ∉ pc ++ ac := by
    rw [List.mem_append]
    rintro (h | h)
    · exact hgpc h
    · exact hgac h
  have hklen : ∀ k0 ∈ groupKeys (pc ++ ac) dfi, k0.length = (pc ++ ac).length := by
    intro k0 hk0
    obtain ⟨r0, -, rfl⟩ := mem_groupKeys.1 hk0
    exact keyOf_length _ _
  have hdrop : ∀ x, (x ∈ (full_rows dfif pc ac [g] idx).map
      (fun r => r.key.drop ac.length)) ↔ ∃ f ∈ factorsOf dfif [g], x = [f] := by
    intro x
    constructor
    · intro hx
      rcases List.mem_map.1 hx with ⟨r, hr, rfl⟩
      obtain ⟨k, hk, hkey⟩ := full_rows_key hr
      obtain ⟨k0, hk0, f, hf, rfl⟩ := hfwd k hk
      refine ⟨f, hf, ?_⟩
      rw [hkey, subKey_full_drop hgnotin (hklen k0 hk0) f]
    · rintro ⟨f, hf, rfl⟩
      obtain ⟨k0, hk0⟩ := List.exists_mem_of_ne_nil _ hgknil
      obtain ⟨r, hr, hkey⟩ := @full_rows_key_surj dfif pc ac [g] idx _ (hbwd k0 hk0 f hf)
      refine List.mem_map.2 ⟨r, hr, ?_⟩
      rw [hkey, subKey_full_drop hgnotin (hklen k0 hk0) f]
  have h1 : (group_result ac [g] (full_rows dfif pc ac [g] idx)).labelList.length
      = (((full_rows dfif pc ac [g] idx).map
          (fun r => r.key.drop ac.length)).dedup).length := by
    show ((group_labels ac [g] _).map _).length = _
    rw [List.length_map, group_labels, length_sortByRank]
  rw [h1]
  have h2 : (((full_rows dfif pc ac [g] idx).map
      (fun r => r.key.drop ac.length)).dedup).length
      = ((factorsOf dfif [g]).map (fun f => [f])).length := by
    apply List.Perm.length_eq
    apply (List.perm_ext_iff_of_nodup (List.nodup_dedup _) ?_).2
    · intro x
      rw [List.mem_dedup, hdrop x, List.mem_map]
      constructor
      · rintro ⟨f, hf, rfl⟩
        exact ⟨f, hf, rfl⟩
      · rintro ⟨f, hf, rfl⟩
        exact ⟨f, hf, rfl⟩
    · refine List.Nodup.map ?_ ?_
      · intro a b hab
        simpa using hab
      · exact nodup_sortByRank _ (List.nodup_dedup _)
  rw [h2, List.length_map]
  show (sortByRank _ _).length = _
  rw [length_sortByRank]

def sample_medical18 : Incident :=
  ⟨6, "Medical", "2018-05-04", 2018, "12", "04", "18", "Fri", "May", 13002⟩

/-- C6 amended: every returned result has equally long x and y sequences;
labels is empty without grouping; and when grouping by Type (whose column
never coincides with an aggregation or pattern column) the labels have
one entry per distinct type value in the filtered input.  (When the
grouping column coincides with a pattern column, as for group "Year"
under Weekly or Yearly, the labels instead enumerate that column over the
unfiltered category index; see the counterexample.) -/
theorem C6_xy_labels (dfi : List Incident) (agg pattern group : String)
    (types : List String) (locations : Option (List Nat)) :
    (∀ out, aggregate_data_for_time_series dfi agg pattern group types locations
        = some out →
      out.xLen = out.yLen ∧ (group = "None" → out.labelList = [])) ∧
    (group = "Type" →
      ∀ out, aggregate_data_for_time_series dfi agg pattern group types locations
          = some out →
        out.labelList.length
          = ((location_filter (type_filter dfi types) locations).map
              (fun r => colVal r Col.dim_incident_incident_type)).dedup.length) := by
  constructor
  · intro out h
    rcases aggregate_out_cases h with ⟨hgn, b, pc, ac, rfl⟩ |
        ⟨gcols, hgs, ac, rows, rfl⟩
    · exact ⟨flat_result_len_eq dfi b pc ac, fun _ => rfl⟩
    · refine ⟨group_result_len_eq ac gcols rows, fun hgN => ?_⟩
      rw [hgN] at hgs
      have : (none : Option (List Col)) = some gcols := Option.some.inj hgs
      cases this
  · intro hgT out h
    subst hgT
    rcases hp : pattern_mapping pattern with _ | pcols
    · rw [aggregate_mapping_none (Or.inl hp)] at h
      cases h
    rcases ha : agg_mapping agg with _ | acols
    · rw [aggregate_mapping_none (Or.inr (Or.inl ha))] at h
      cases h
    have hg : group_mapping "Type" = some (some [Col.dim_incident_incident_type]) := rfl
    unfold aggregate_data_for_time_series at h
    rw [hp, ha, hg] at h
    dsimp only at h
    obtain ⟨hnac, hnpc⟩ := itype_not_mem_adjust ha hp
    have hnotin : Col.dim_incident_incident_type ∉
        (adjust_cols agg pattern acols pcols).1 ++ (adjust_cols agg pattern acols pcols).2 := by
      rw [List.mem_append]
      rintro (hx | hx)
      · exact hnac hx
      · exact hnpc hx
    have hcf : (((adjust_cols agg pattern acols pcols).1 ++
        (adjust_cols agg pattern acols pcols).2).contains
          Col.dim_incident_incident_type) = false := by
      rw [Bool.eq_false_iff]
      rw [Ne, List.contains_iff_exists_mem_beq]
      rintro ⟨b, hb, hbeq⟩
      have hbe : Col.dim_incident_incident_type = b := by simpa using hbeq
      rw [← hbe] at hb
      exact hnotin hb
    rw [if_neg (by simp only [List.all_cons, List.all_nil, Bool.and_true, hcf]; simp)] at h
    rcases hcc : create_complete_index dfi
        ((adjust_cols agg pattern acols pcols).2 ++ (adjust_cols agg pattern acols pcols).1)
        (factorsOf (location_filter (type_filter dfi types) locations)
          [Col.dim_incident_incident_type]) with _ | idx
    · rw [hcc] at h
      cases h
    · rw [hcc] at h
      dsimp only at h
      have hout : out = group_result_full
          (location_filter (type_filter dfi types) locations)
          (adjust_cols agg pattern acols pcols).2 (adjust_cols agg pattern acols pcols).1
          [Col.dim_incident_incident_type] idx := (Option.some.inj h).symm
      rw [hout]
      exact full_labels_length dfi _ _ _ _ idx hnpc hnac hcc

/-- C6 counterexample: grouping by Year under pattern Yearly with a type
filter that leaves only year 2017, the filtered input has one distinct
group value, yet labels has two entries (2017 and 2018): the complete
index in this branch is built from the unfiltered table (ihelpers.py line
246), so group values absent from the filtered input survive. -/
theorem C6_counterexample :
    ((location_filter (type_filter [sample_fire, sample_medical18] ["Fire"]) none).map
        (fun r => colVal r Col.dim_datum_jaar)).dedup.length = 1 ∧
    aggregate_data_for_time_series [sample_fire, sample_medical18] "Day" "Yearly" "Year"
        ["Fire"] none
      = some (.grouped [[.tup [.str "Jan", .str "01"]], [.tup [.str "May", .str "04"]]]
          [[1], [0]] [.nat 2017, .nat 2018]) := by
  constructor
  · decide
  · simp +decide [aggregate_data_for_time_series, pattern_mapping, agg_mapping,
      group_mapping, adjust_cols, type_filter, location_filter, group_result_sub,
      sub_rows, group_result, group_labels, reindexed_counts, groupKeys, keyOf,
      colVal, countAt, meanRows, subKey, rowVal, order_categoricals, sortByRank,
      inSort, ordIns, skLe, skLt, ranksLt, pairLt, keySortKey, rowSortKey,
      add_x_column, keyRank, valRank, catRank, sample_fire, sample_medical18]

/-- Witness for C6 at a concrete Type-grouped call. -/
theorem C6_witness :
    ∃ out, aggregate_data_for_time_series [sample_fire, sample_medical] "Hour" "Daily"
        "Type" ["Fire", "Medical"] none = some out ∧
      out.xLen = out.yLen ∧
      out.labelList.length
        = ((location_filter (type_filter [sample_fire, sample_medical]
            ["Fire", "Medical"]) none).map
            (fun r => colVal r Col.dim_incident_incident_type)).dedup.length := by
  have heval : aggregate_data_for_time_series [sample_fire, sample_medical] "Hour"
      "Daily" "Type" ["Fire", "Medical"] none
      = some (.grouped [[.scalar (.str "07")], [.scalar (.str "07")]] [[1/2], [1/2]]
          [.str "Fire", .str "Medical"]) := by
    simp +decide [aggregate_data_for_time_series, pattern_mapping, agg_mapping,
      group_mapping, adjust_cols, type_filter, location_filter, group_result_full,
      full_rows, create_complete_index, factorsOf, group_result, group_labels,
      reindexed_counts, groupKeys, keyOf, colVal, countAt, meanRows, subKey, rowVal,
      order_categoricals, sortByRank, inSort, ordIns, skLe, skLt, ranksLt, pairLt,
      keySortKey, rowSortKey, add_x_column, keyRank, valRank, catRank, sample_fire,
      sample_medical]
  exact ⟨_, heval,
    ((C6_xy_labels [sample_fire, sample_medical] "Hour" "Daily" "Type"
      ["Fire", "Medical"] none).1 _ heval).1,
    (C6_xy_labels [sample_fire, sample_medical] "Hour" "Daily" "Type"
      ["Fire", "Medical"] none).2 rfl _ heval⟩

def sample_tue : Incident :=
  ⟨4, "Fire", "2017-01-03", 2017, "10", "03", "01", "Tue", "Jan", 13001⟩

def sample_fri : Incident :=
  ⟨5, "Fire", "2017-01-06", 2017, "11", "06", "01", "Fri", "Jan", 13002⟩

/-- Witness for C4: on a concrete table whose weekday keys are Tue and
Fri, the output presents them as Tue before Fri (their categorical order;
the alphabetical order would put Fri first), and the claimed sortedness
follows from the theorem. -/
theorem C4_witness :
    "Day" ∈ feasible_combos_agg "Weekly" ∧
    "None" ∈ feasible_combos_group "Weekly" ∧
    aggregate_data_for_time_series [sample_fri, sample_tue] "Day" "Weekly" "None"
        ["Fire"] none
      = some (.flat [.scalar (.str "Tue"), .scalar (.str "Fri")] [1, 1]) ∧
    (TSOut.flat [.scalar (.str "Tue"), .scalar (.str "Fri")] [1, 1]).weekdaySorted := by
  have heval : aggregate_data_for_time_series [sample_fri, sample_tue] "Day" "Weekly"
      "None" ["Fire"] none
      = some (.flat [.scalar (.str "Tue"), .scalar (.str "Fri")] [1, 1]) := by
    simp +decide [aggregate_data_for_time_series, pattern_mapping, agg_mapping,
      group_mapping, adjust_cols, type_filter, location_filter, flat_result,
      flat_rows, reindexed_counts, groupKeys, keyOf, colVal, countAt, meanRows,
      subKey, rowVal, order_categoricals, sortByRank, inSort, ordIns, skLe, skLt,
      ranksLt, pairLt, keySortKey, rowSortKey, add_x_column, keyRank, valRank,
      catRank, sample_fri, sample_tue]
  exact ⟨by decide, by decide, heval,
    C4_weekday_categorical_order [sample_fri, sample_tue] ["Fire"] none "Weekly"
      "None" (by decide) (by decide) _ heval⟩
